import Mathlib

/-!
Verification of the cancellable memoized call wrapper (the `dPromise`
decorator) and the accessor decorators (`dRef`, `dShallowRef`) of the
vue3-native-decorators repository.

The wrapper's state (`PromiseObject`) and its operations (`makePromise`,
`abortPromise`, `onAbort`, the inspection functions) are translated from the
source file that defines them.  The asynchronous behaviour is embedded as a
small-step machine: one step is one scheduler turn (an external event plus
the microtasks it drains), so the machine's states are the points at which
external code can observe the wrapper between turns.  One additional state,
`makePromiseExec`, is the point inside the `new Promise` executor at which
the underlying operation itself runs (`target.call(this, ...args)` is invoked
before the executor returns, hence before `promiseObject.promise` is
assigned); the operation's own synchronous prefix observes the wrapper there.
-/

/-- Errors observable through the wrapper.  `abortError` models the source's
`class AbortError extends Error { constructor() { super('Aborted') } }`;
`opError` models an arbitrary rejection produced by the underlying operation,
identified by its message. -/
inductive JsError : Type where
  | abortError : JsError
  | opError : String → JsError
deriving DecidableEq, Repr

/-- The `message` property of an error: `AbortError` carries `"Aborted"`. -/
def JsError.message : JsError → String
  | JsError.abortError => "Aborted"
  | JsError.opError m => m

/-- The settlement of one shared promise: fulfilled with a value, or rejected
with an error. -/
inductive Outcome (V : Type) : Type where
  | ok : V → Outcome V
  | rejected : JsError → Outcome V
deriving DecidableEq, Repr

/-- The mutable fields of the source's `PromiseObject` interface.  `promise`
holds the identity of the shared in-flight chained promise (promises are
identified by allocation number); `isPendingRef` is `_isPending.value`;
`errorRef` is `_error.value`; `resultRef` is `_result.value`; `handlers`
records whether `resolve`/`reject` are stored (the two are set and cleared
together in the source); `abortListeners` is `_abortListeners`, callbacks
identified by number, in registration order. -/
structure PromiseObject (V : Type) : Type where
  promise : Option Nat
  isPendingRef : Bool
  errorRef : Option JsError
  resultRef : Option V
  handlers : Bool
  abortListeners : List Nat
deriving DecidableEq, Repr

/-- The object built by the source's `assignPromiseObject`: `promise`,
`resolve` and `reject` undefined, `_isPending` a ref holding `false`,
`_error` and `_result` refs holding `undefined`, `_abortListeners` empty. -/
def assignPromiseObject {V : Type} : PromiseObject V where
  promise := none
  isPendingRef := false
  errorRef := none
  resultRef := none
  handlers := false
  abortListeners := []

/-- A machine state: the promise object plus history (ghost) fields used only
to state properties.  `nextId` allocates promise identities; `opCalls` logs
each invocation of the underlying operation with its arguments; `fired` logs
every abort listener ever fired, in order; `outcomes` logs the settlement of
each shared promise; `sinceSettle` logs the listeners registered since the
last settlement (reset exactly when the source clears `_abortListeners` on a
settlement path). -/
structure CState (A V : Type) : Type where
  obj : PromiseObject V
  nextId : Nat
  opCalls : List A
  fired : List Nat
  outcomes : List (Nat × Outcome V)
  sinceSettle : List Nat
deriving DecidableEq, Repr

/-- The machine's initial state: a freshly assigned promise object with no
history. -/
def initCState {A V : Type} : CState A V where
  obj := assignPromiseObject
  nextId := 0
  opCalls := []
  fired := []
  outcomes := []
  sinceSettle := []

/-- The state while the `new Promise` executor of `makePromise` runs, after
its synchronous mutations and at the moment `target.call(this, ...args)` is
invoked: `_isPending.value = true`, `_error.value = undefined`,
`_result.value = undefined`, `resolve`/`reject` stored, the underlying
operation invoked with this call's arguments — and `promiseObject.promise`
not yet assigned, because the executor runs before the constructor returns. -/
def makePromiseExec {A V : Type} (s : CState A V) (a : A) : CState A V :=
  { s with
    obj := { s.obj with
             isPendingRef := true
             errorRef := none
             resultRef := none
             handlers := true }
    opCalls := s.opCalls ++ [a] }

/-- One complete synchronous run of the source's `makePromise`: if
`promiseObject.promise` is set, return it unchanged (the arguments are
dropped and the underlying operation is not invoked); otherwise run the
executor (`makePromiseExec`) and store the freshly allocated chained promise
in `promiseObject.promise`, returning its identity. -/
def makePromise {A V : Type} (s : CState A V) (a : A) : CState A V × Nat :=
  match s.obj.promise with
  | some p => (s, p)
  | none =>
    let s1 := makePromiseExec s a
    ({ s1 with
       obj := { s1.obj with promise := some s.nextId }
       nextId := s.nextId + 1 },
     s.nextId)

/-- The source's `.finally` callback: `promise`, `resolve` and `reject`
cleared, `_abortListeners.length = 0`, `_isPending.value = false`. -/
def settleClear {V : Type} (o : PromiseObject V) : PromiseObject V :=
  { o with
    promise := none
    handlers := false
    abortListeners := []
    isPendingRef := false }

/-- The underlying operation fulfils and the chain's continuations run: the
`.then` callback stores the value in `_result.value`, the `.finally` callback
clears the transient fields; the shared promise settles fulfilled.  A
fulfilment arriving when no promise is in flight (a stale `resolve` of an
already settled inner promise) has no effect. -/
def settleResolve {A V : Type} (s : CState A V) (v : V) : CState A V :=
  match s.obj.promise with
  | none => s
  | some p =>
    { s with
      obj := settleClear { s.obj with resultRef := some v }
      outcomes := s.outcomes ++ [(p, Outcome.ok v)]
      sinceSettle := [] }

/-- The inner promise rejects and the chain's continuations run: the `.catch`
callback stores the error in `_error.value` (and rethrows), the `.finally`
callback clears the transient fields; the shared promise settles rejected.
A stale rejection with no promise in flight has no effect. -/
def settleReject {A V : Type} (s : CState A V) (e : JsError) : CState A V :=
  match s.obj.promise with
  | none => s
  | some p =>
    { s with
      obj := settleClear { s.obj with errorRef := some e }
      outcomes := s.outcomes ++ [(p, Outcome.rejected e)]
      sinceSettle := [] }

/-- The source's `abortPromise`, together with the microtasks its rejection
drains: if `isPending` is false, return unchanged; otherwise fire every
registered listener in registration order, clear `_abortListeners`, and call
the stored `reject` with a fresh `AbortError`, whose chain continuations then
settle the shared promise rejected (`settleReject`). -/
def abortPromise {A V : Type} (s : CState A V) : CState A V :=
  if s.obj.isPendingRef = false then s
  else
    let s1 : CState A V :=
      { s with
        fired := s.fired ++ s.obj.abortListeners
        obj := { s.obj with abortListeners := [] }
        sinceSettle := [] }
    if s.obj.handlers then settleReject s1 JsError.abortError else s1

/-- The promise object's `onAbort` method: push the listener onto
`_abortListeners` (allowed at any time once the object exists). -/
def pushAbortListener {A V : Type} (s : CState A V) (cb : Nat) : CState A V :=
  { s with
    obj := { s.obj with abortListeners := s.obj.abortListeners ++ [cb] }
    sinceSettle := s.sinceSettle ++ [cb] }

/-- One external event: an invocation of the wrapped callable, the underlying
operation settling (fulfilment or rejection), an `abort()`, or an `onAbort`
registration. -/
inductive Event (A V : Type) : Type where
  | call : A → Event A V
  | resolveOp : V → Event A V
  | rejectOp : JsError → Event A V
  | abortCall : Event A V
  | listen : Nat → Event A V
deriving DecidableEq, Repr

/-- One scheduler turn: apply the event and drain its microtasks. -/
def cmcStep {A V : Type} (s : CState A V) : Event A V → CState A V
  | Event.call a => (makePromise s a).1
  | Event.resolveOp v => settleResolve s v
  | Event.rejectOp e => settleReject s e
  | Event.abortCall => abortPromise s
  | Event.listen cb => pushAbortListener s cb

/-- Run the machine from the initial state through a list of events. -/
def cmcRun {A V : Type} (es : List (Event A V)) : CState A V :=
  es.foldl cmcStep initCState

/-- A state the machine can be observed in between scheduler turns. -/
def Reachable {A V : Type} (s : CState A V) : Prop :=
  ∃ es : List (Event A V), cmcRun es = s

/-- A handle as the free functions `abort`, `onAbort`, `isPromisePending`,
`getPromiseError` and `getPromiseResult` receive it: a function that the
decorator never wrapped (`plain`), a lazily wrapped method before its first
invocation (`wrappedLazy` — the assigned `makePromise` closure has no
`_isDPromise` property until `assignPromiseObject` runs on the first call),
or a method whose promise object exists (`wrappedInit`). -/
inductive MethodHandle (A V : Type) : Type where
  | plain : MethodHandle A V
  | wrappedLazy : MethodHandle A V
  | wrappedInit : CState A V → MethodHandle A V
deriving DecidableEq, Repr

/-- The handle produced by decorating with `dPromise(true)`: the source's
`if (eagerInit) promiseObject = assignPromiseObject(makePromise)` runs at
initialization, so the promise object exists before any call. -/
def promiseObjectEager {A V : Type} : MethodHandle A V :=
  MethodHandle.wrappedInit initCState

/-- The free function `abort`: throws `Error('Promise object not found')`
unless the handle carries `_isDPromise`, otherwise runs `abortPromise`. -/
def abort {A V : Type} : MethodHandle A V → Except String (CState A V)
  | MethodHandle.wrappedInit s => Except.ok (abortPromise s)
  | _ => Except.error "Promise object not found"

/-- The free function `onAbort`: throws unless the handle carries
`_isDPromise`, otherwise pushes the listener. -/
def onAbort {A V : Type} : MethodHandle A V → Nat → Except String (CState A V)
  | MethodHandle.wrappedInit s, cb => Except.ok (pushAbortListener s cb)
  | _, _ => Except.error "Promise object not found"

/-- The free function `isPromisePending`: throws unless the handle carries
`_isDPromise`, otherwise reads `isPending`. -/
def isPromisePending {A V : Type} : MethodHandle A V → Except String Bool
  | MethodHandle.wrappedInit s => Except.ok s.obj.isPendingRef
  | _ => Except.error "Promise object not found"

/-- The free function `getPromiseError`: throws unless the handle carries
`_isDPromise`, otherwise reads `error` (absent is `undefined`, not a throw). -/
def getPromiseError {A V : Type} : MethodHandle A V → Except String (Option JsError)
  | MethodHandle.wrappedInit s => Except.ok s.obj.errorRef
  | _ => Except.error "Promise object not found"

/-- The free function `getPromiseResult`: throws unless the handle carries
`_isDPromise`, otherwise reads `result` (absent is `undefined`, not a throw). -/
def getPromiseResult {A V : Type} : MethodHandle A V → Except String (Option V)
  | MethodHandle.wrappedInit s => Except.ok s.obj.resultRef
  | _ => Except.error "Promise object not found"

/-- Repeated synchronous invocations: thread the state through `makePromise`
once per argument list, collecting the returned promise identities. -/
def callRets {A V : Type} (s : CState A V) : List A → CState A V × List Nat
  | [] => (s, [])
  | a :: as =>
    let r1 := makePromise s a
    let r2 := callRets r1.1 as
    (r2.1, r1.2 :: r2.2)

/-- The reactive cell behind a `dRef`- or `dShallowRef`-decorated accessor,
modelled by the reactive-cell contract the package consumes: a mutable holder
whose read yields the last written value. -/
structure VueRef (V : Type) : Type where
  value : V
deriving DecidableEq, Repr

/-- The `init` branch of `dRef`: `ref(value)` wraps the initial value. -/
def dRefInit {V : Type} (v : V) : VueRef V := { value := v }

/-- The `get` branch of `dRef`: read the backing cell's `.value`. -/
def dRefGet {V : Type} (backing : VueRef V) : V := backing.value

/-- The `set` branch of `dRef`: fetch the backing cell and assign its
`.value`. -/
def dRefSet {V : Type} (backing : VueRef V) (nv : V) : VueRef V :=
  { backing with value := nv }

/-- The `init` branch of `dShallowRef`: `shallowRef(value)`. -/
def dShallowRefInit {V : Type} (v : V) : VueRef V := { value := v }

/-- The `get` branch of `dShallowRef`. -/
def dShallowRefGet {V : Type} (backing : VueRef V) : V := backing.value

/-- The `set` branch of `dShallowRef`. -/
def dShallowRefSet {V : Type} (backing : VueRef V) (nv : V) : VueRef V :=
  { backing with value := nv }

/-- The machine invariant at states between scheduler turns: pending iff a
promise is in flight; handlers stored iff a promise is in flight; a pending
call has already cleared `result`/`error`; `result` and `error` are never
both present; when not pending, both absent exactly when the underlying
operation was never invoked; a pending call has invoked the operation; and
the listener list holds exactly the callbacks registered since the last
settlement. -/
structure CInv {A V : Type} (s : CState A V) : Prop where
  pendIff : s.obj.isPendingRef = true ↔ s.obj.promise ≠ none
  handIff : s.obj.handlers = true ↔ s.obj.promise ≠ none
  pendClear : s.obj.isPendingRef = true → s.obj.resultRef = none ∧ s.obj.errorRef = none
  mutex : s.obj.resultRef = none ∨ s.obj.errorRef = none
  quiescent : s.obj.isPendingRef = false →
    ((s.obj.resultRef = none ∧ s.obj.errorRef = none) ↔ s.opCalls = [])
  pendCalled : s.obj.isPendingRef = true → s.opCalls ≠ []
  ghostLis : s.obj.abortListeners = s.sinceSettle

theorem inv_init {A V : Type} : CInv (initCState : CState A V) := by
  refine ⟨?_, ?_, ?_, ?_, ?_, ?_, ?_⟩ <;> simp [initCState, assignPromiseObject]

theorem inv_step {A V : Type} {s : CState A V} (h : CInv s) (e : Event A V) :
    CInv (cmcStep s e) := by
  cases e with
  | call a =>
    cases hp : s.obj.promise with
    | some p =>
      simpa [cmcStep, makePromise, hp] using h
    | none =>
      refine ⟨?_, ?_, ?_, ?_, ?_, ?_, ?_⟩ <;>
        simp [cmcStep, makePromise, makePromiseExec, hp, h.ghostLis]
  | resolveOp v =>
    cases hp : s.obj.promise with
    | none => simpa [cmcStep, settleResolve, hp] using h
    | some p =>
      have hpend : s.obj.isPendingRef = true := h.pendIff.mpr (by simp [hp])
      have hc := h.pendClear hpend
      have hcalls := h.pendCalled hpend
      refine ⟨?_, ?_, ?_, ?_, ?_, ?_, ?_⟩ <;>
        simp [cmcStep, settleResolve, settleClear, hp, hc.1, hc.2, hcalls]
  | rejectOp e =>
    cases hp : s.obj.promise with
    | none => simpa [cmcStep, settleReject, hp] using h
    | some p =>
      have hpend : s.obj.isPendingRef = true := h.pendIff.mpr (by simp [hp])
      have hc := h.pendClear hpend
      have hcalls := h.pendCalled hpend
      refine ⟨?_, ?_, ?_, ?_, ?_, ?_, ?_⟩ <;>
        simp [cmcStep, settleReject, settleClear, hp, hc.1, hc.2, hcalls]
  | abortCall =>
    cases hpend : s.obj.isPendingRef with
    | false =>
      simpa [cmcStep, abortPromise, hpend] using h
    | true =>
      obtain ⟨p, hp⟩ : ∃ p, s.obj.promise = some p := by
        have h1 := h.pendIff.mp hpend
        cases hq : s.obj.promise with
        | none => exact absurd hq h1
        | some p => exact ⟨p, rfl⟩
      have hhand : s.obj.handlers = true := h.handIff.mpr (by simp [hp])
      have hc := h.pendClear hpend
      have hcalls := h.pendCalled hpend
      refine ⟨?_, ?_, ?_, ?_, ?_, ?_, ?_⟩ <;>
        simp [cmcStep, abortPromise, settleReject, settleClear, hpend, hhand, hp,
          hc.1, hc.2, hcalls]
  | listen cb =>
    exact ⟨by simpa [cmcStep, pushAbortListener] using h.pendIff,
      by simpa [cmcStep, pushAbortListener] using h.handIff,
      by simpa [cmcStep, pushAbortListener] using h.pendClear,
      by simpa [cmcStep, pushAbortListener] using h.mutex,
      by simpa [cmcStep, pushAbortListener] using h.quiescent,
      by simpa [cmcStep, pushAbortListener] using h.pendCalled,
      by simp [cmcStep, pushAbortListener, h.ghostLis]⟩

theorem inv_run {A V : Type} (es : List (Event A V)) : CInv (cmcRun es) := by
  have hgen : ∀ (t : CState A V), CInv t → CInv (es.foldl cmcStep t) := by
    induction es with
    | nil => exact fun t ht => ht
    | cons e es ih => exact fun t ht => ih (cmcStep t e) (inv_step ht e)
  exact hgen initCState inv_init

theorem inv_reachable {A V : Type} {s : CState A V} (h : Reachable s) : CInv s := by
  obtain ⟨es, rfl⟩ := h
  exact inv_run es

theorem callRets_of_inflight {A V : Type} (p : Nat) :
    ∀ (as : List A) (s : CState A V), s.obj.promise = some p →
      callRets s as = (s, List.replicate as.length p)
  | [], s, _ => by simp [callRets]
  | a :: as, s, h => by
    simp [callRets, makePromise, h, callRets_of_inflight p as s h, List.replicate_succ]

/-- C1: a call started when no promise is in flight stores a shared promise
and invokes the underlying operation exactly once, with that call's
arguments; every further synchronous invocation made before the first
settles returns the identical promise (later arguments are dropped, the
operation is not invoked again, the state does not change); and because all
callers hold the same promise, any settlement — fulfilment or rejection — is
the one settlement recorded for that shared promise, received by all of
them. -/
theorem c1_memoized_single_flight {A V : Type} (s : CState A V) (a : A) (as : List A)
    (h : s.obj.promise = none) :
    (makePromise s a).1.obj.promise = some (makePromise s a).2 ∧
    callRets (makePromise s a).1 as =
      ((makePromise s a).1, List.replicate as.length (makePromise s a).2) ∧
    (makePromise s a).1.opCalls = s.opCalls ++ [a] ∧
    (∀ v : V, (settleResolve (makePromise s a).1 v).outcomes =
      (makePromise s a).1.outcomes ++ [((makePromise s a).2, Outcome.ok v)]) ∧
    (∀ e : JsError, (settleReject (makePromise s a).1 e).outcomes =
      (makePromise s a).1.outcomes ++ [((makePromise s a).2, Outcome.rejected e)]) := by
  have hfl : (makePromise s a).1.obj.promise = some (makePromise s a).2 := by
    simp [makePromise, h]
  refine ⟨hfl, callRets_of_inflight _ as _ hfl, ?_, ?_, ?_⟩
  · simp [makePromise, h, makePromiseExec]
  · intro v
    simp [makePromise, h, makePromiseExec, settleResolve]
  · intro e
    simp [makePromise, h, makePromiseExec, settleReject]

/-- C1 witness: from the fresh state, a first call with argument 1 followed
by two more synchronous calls returns the same promise three times and
invokes the operation once, with argument 1. -/
theorem c1_memoized_single_flight_witness :
    callRets (makePromise (initCState : CState Nat Nat) 1).1 [2, 3] =
      ((makePromise (initCState : CState Nat Nat) 1).1,
        List.replicate 2 (makePromise (initCState : CState Nat Nat) 1).2) ∧
    (makePromise (initCState : CState Nat Nat) 1).1.opCalls = [] ++ [1] :=
  ⟨(c1_memoized_single_flight initCState 1 [2, 3] rfl).2.1,
   (c1_memoized_single_flight initCState 1 [2, 3] rfl).2.2.1⟩

/-- C2: aborting while a call is pending fires every registered callback
exactly once in registration order, clears the callback list, settles the
in-flight promise rejected with an `AbortError` whose message is "Aborted",
records that error, and leaves `isPending` false once the rejection has been
processed; aborting while not pending changes nothing. -/
theorem c2_abort_behaviour {A V : Type} (s : CState A V) (h : Reachable s) :
    (s.obj.isPendingRef = false → abortPromise s = s) ∧
    (s.obj.isPendingRef = true →
      (abortPromise s).fired = s.fired ++ s.obj.abortListeners ∧
      (abortPromise s).obj.abortListeners = [] ∧
      (abortPromise s).obj.errorRef = some JsError.abortError ∧
      (abortPromise s).obj.isPendingRef = false ∧
      JsError.message JsError.abortError = "Aborted" ∧
      ∃ p : Nat, s.obj.promise = some p ∧
        (abortPromise s).outcomes =
          s.outcomes ++ [(p, Outcome.rejected JsError.abortError)]) := by
  have inv := inv_reachable h
  constructor
  · intro hnp
    simp [abortPromise, hnp]
  · intro hp
    obtain ⟨p, hprom⟩ := Option.ne_none_iff_exists'.mp (inv.pendIff.mp hp)
    have hhand : s.obj.handlers = true := inv.handIff.mpr (inv.pendIff.mp hp)
    refine ⟨?_, ?_, ?_, ?_, rfl, ⟨p, hprom, ?_⟩⟩ <;>
      simp [abortPromise, hp, hhand, settleReject, settleClear, hprom]

/-- C2 witness: a pending call with one registered listener, aborted. -/
theorem c2_abort_behaviour_witness :
    (abortPromise (cmcRun [Event.call 1, Event.listen 4] : CState Nat Nat)).obj.errorRef =
      some JsError.abortError ∧
    (abortPromise (cmcRun [Event.call 1, Event.listen 4] : CState Nat Nat)).fired =
      (cmcRun [Event.call 1, Event.listen 4] : CState Nat Nat).fired ++
        (cmcRun [Event.call 1, Event.listen 4] : CState Nat Nat).obj.abortListeners := by
  have h := (c2_abort_behaviour (cmcRun [Event.call 1, Event.listen 4] : CState Nat Nat)
    ⟨[Event.call 1, Event.listen 4], rfl⟩).2 (by decide)
  exact ⟨h.2.2.1, h.1⟩

/-- C3: `result` and `error` are never both present; at any observable point
with no call pending, both are absent exactly when the underlying operation
was never invoked; and every settlement — fulfilment, rejection or abort —
leaves exactly one of the two present. -/
theorem c3_settled_mutual_exclusion {A V : Type} (s : CState A V) (h : Reachable s) :
    ¬(s.obj.resultRef ≠ none ∧ s.obj.errorRef ≠ none) ∧
    (s.obj.isPendingRef = false →
      ((s.obj.resultRef = none ∧ s.obj.errorRef = none) ↔ s.opCalls = [])) ∧
    (∀ v : V, s.obj.promise ≠ none →
      (settleResolve s v).obj.resultRef = some v ∧
      (settleResolve s v).obj.errorRef = none) ∧
    (∀ e : JsError, s.obj.promise ≠ none →
      (settleReject s e).obj.errorRef = some e ∧
      (settleReject s e).obj.resultRef = none) ∧
    (s.obj.isPendingRef = true →
      (abortPromise s).obj.errorRef = some JsError.abortError ∧
      (abortPromise s).obj.resultRef = none) := by
  have inv := inv_reachable h
  refine ⟨?_, inv.quiescent, ?_, ?_, ?_⟩
  · rcases inv.mutex with h1 | h1 <;> simp [h1]
  · intro v hq
    obtain ⟨p, hprom⟩ := Option.ne_none_iff_exists'.mp hq
    have hc := inv.pendClear (inv.pendIff.mpr hq)
    constructor <;> simp [settleResolve, hprom, settleClear, hc.2]
  · intro e hq
    obtain ⟨p, hprom⟩ := Option.ne_none_iff_exists'.mp hq
    have hc := inv.pendClear (inv.pendIff.mpr hq)
    constructor <;> simp [settleReject, hprom, settleClear, hc.1]
  · intro hp
    obtain ⟨p, hprom⟩ := Option.ne_none_iff_exists'.mp (inv.pendIff.mp hp)
    have hhand : s.obj.handlers = true := inv.handIff.mpr (inv.pendIff.mp hp)
    have hc := inv.pendClear hp
    constructor <;>
      simp [abortPromise, hp, hhand, settleReject, hprom, settleClear, hc.1]

/-- C3 witness: after a call fulfils with 5, the quiescent state is settled
and its fields satisfy the stated mutual exclusion. -/
theorem c3_settled_mutual_exclusion_witness :
    ¬((cmcRun [Event.call 1, Event.resolveOp 5] : CState Nat Nat).obj.resultRef ≠ none ∧
      (cmcRun [Event.call 1, Event.resolveOp 5] : CState Nat Nat).obj.errorRef ≠ none) ∧
    ((cmcRun [Event.call 1, Event.resolveOp 5] : CState Nat Nat).obj.isPendingRef = false →
      (((cmcRun [Event.call 1, Event.resolveOp 5] : CState Nat Nat).obj.resultRef = none ∧
        (cmcRun [Event.call 1, Event.resolveOp 5] : CState Nat Nat).obj.errorRef = none) ↔
        (cmcRun [Event.call 1, Event.resolveOp 5] : CState Nat Nat).opCalls = [])) :=
  ⟨(c3_settled_mutual_exclusion _ ⟨[Event.call 1, Event.resolveOp 5], rfl⟩).1,
   (c3_settled_mutual_exclusion _ ⟨[Event.call 1, Event.resolveOp 5], rfl⟩).2.1⟩

/-- C4 counterexample: at the observable point inside the call-start
sequence where `target.call(this, ...args)` runs — the underlying
operation's own synchronous prefix — the pending flag is already true
(indeed `isPromisePending` answers true) while `promiseObject.promise` is
still unset, because the `new Promise` executor runs before the constructor
returns and the assignment happens after.  So "call start sets pending and
stores the shared promise together" does not hold at every observable
point. -/
theorem c4_pending_iff_inflight_cex :
    isPromisePending
        (MethodHandle.wrappedInit (makePromiseExec (initCState : CState Nat Nat) 0)) =
      Except.ok true ∧
    (makePromiseExec (initCState : CState Nat Nat) 0).obj.promise = none :=
  ⟨rfl, rfl⟩

/-- C4 (amended): at every observable point between scheduler turns the
pending flag is true exactly when an in-flight promise is stored — and
settlement clears both together.  The exception the counterexample forces:
while the underlying operation's synchronous prefix runs inside the
executor, pending is already true although the shared promise is not yet
stored. -/
theorem c4_pending_iff_inflight {A V : Type} (s : CState A V) (h : Reachable s) :
    (s.obj.isPendingRef = true ↔ s.obj.promise ≠ none) ∧
    (∀ a : A, s.obj.promise = none →
      (makePromiseExec s a).obj.isPendingRef = true ∧
      (makePromiseExec s a).obj.promise = none) := by
  refine ⟨(inv_reachable h).pendIff, ?_⟩
  intro a hq
  constructor <;> simp [makePromiseExec, hq]

/-- C4 witness: the equivalence at a reachable pending state. -/
theorem c4_pending_iff_inflight_witness :
    ((cmcRun [Event.call 1] : CState Nat Nat).obj.isPendingRef = true ↔
      (cmcRun [Event.call 1] : CState Nat Nat).obj.promise ≠ none) :=
  (c4_pending_iff_inflight _ ⟨[Event.call 1], rfl⟩).1

/-- C5 counterexample: after a call fulfils, registering a callback via
`onAbort` while no call is in flight leaves the listener list non-empty with
`promise` absent — the list is not empty at every observable point without
an in-flight operation. -/
theorem c5_listeners_only_while_inflight_cex :
    (cmcRun [Event.call 1, Event.resolveOp 5, Event.listen 7] : CState Nat Nat).obj.promise =
      none ∧
    (cmcRun [Event.call 1, Event.resolveOp 5, Event.listen 7] :
      CState Nat Nat).obj.abortListeners = [7] :=
  ⟨rfl, rfl⟩

/-- C5 (amended): `onAbort` may make the listener list non-empty at any time
once the promise object exists, also while no call is in flight; what holds
is that every settlement — fulfilment, rejection or abort — clears the list,
so at every observable point the list holds exactly the callbacks registered
since the last settlement. -/
theorem c5_listeners_since_settlement {A V : Type} (s : CState A V) (h : Reachable s) :
    s.obj.abortListeners = s.sinceSettle ∧
    (∀ v : V, s.obj.promise ≠ none → (settleResolve s v).obj.abortListeners = []) ∧
    (∀ e : JsError, s.obj.promise ≠ none → (settleReject s e).obj.abortListeners = []) ∧
    (s.obj.isPendingRef = true → (abortPromise s).obj.abortListeners = []) := by
  have inv := inv_reachable h
  refine ⟨inv.ghostLis, ?_, ?_, ?_⟩
  · intro v hq
    obtain ⟨p, hprom⟩ := Option.ne_none_iff_exists'.mp hq
    simp [settleResolve, hprom, settleClear]
  · intro e hq
    obtain ⟨p, hprom⟩ := Option.ne_none_iff_exists'.mp hq
    simp [settleReject, hprom, settleClear]
  · intro hp
    obtain ⟨p, hprom⟩ := Option.ne_none_iff_exists'.mp (inv.pendIff.mp hp)
    have hhand : s.obj.handlers = true := inv.handIff.mpr (inv.pendIff.mp hp)
    simp [abortPromise, hp, hhand, settleReject, hprom, settleClear]

/-- C5 witness: the registered-since-settlement description at a state with
one pending call and one registered listener. -/
theorem c5_listeners_since_settlement_witness :
    (cmcRun [Event.call 1, Event.listen 4] : CState Nat Nat).obj.abortListeners =
      (cmcRun [Event.call 1, Event.listen 4] : CState Nat Nat).sinceSettle :=
  (c5_listeners_since_settlement _ ⟨[Event.call 1, Event.listen 4], rfl⟩).1

/-- C6 counterexample: with the default lazy initialization, the promise
object does not exist before the first invocation, and each inspection
function then throws `Error('Promise object not found')` — they do not
report the "no result yet" case as an absent value there. -/
theorem c6_inspection_never_throws_cex :
    isPromisePending (MethodHandle.wrappedLazy : MethodHandle Nat Nat) =
      Except.error "Promise object not found" ∧
    getPromiseResult (MethodHandle.wrappedLazy : MethodHandle Nat Nat) =
      Except.error "Promise object not found" ∧
    getPromiseError (MethodHandle.wrappedLazy : MethodHandle Nat Nat) =
      Except.error "Promise object not found" :=
  ⟨rfl, rfl, rfl⟩

/-- C6 (amended): once the promise object exists — after the first
invocation, or from decoration time with `dPromise(true)` — the inspection
functions never throw: each returns the field's current value, and a missing
result or error is reported as the absent value; in particular, on an
eagerly initialized callable before any call, all three report absence. -/
theorem c6_inspection_never_throws {A V : Type} (s : CState A V) :
    isPromisePending (MethodHandle.wrappedInit s) = Except.ok s.obj.isPendingRef ∧
    getPromiseError (MethodHandle.wrappedInit s) = Except.ok s.obj.errorRef ∧
    getPromiseResult (MethodHandle.wrappedInit s) = Except.ok s.obj.resultRef ∧
    isPromisePending (promiseObjectEager : MethodHandle A V) = Except.ok false ∧
    getPromiseError (promiseObjectEager : MethodHandle A V) = Except.ok none ∧
    getPromiseResult (promiseObjectEager : MethodHandle A V) = Except.ok none :=
  ⟨rfl, rfl, rfl, rfl, rfl, rfl⟩

/-- C7 counterexample: on a callable wrapped with `dPromise(true)` for which
no call has ever started, `abort`, `onAbort` and the inspection functions do
not throw: inspection reports absence, `abort` is a no-op, `onAbort`
registers the listener — not a fail-fast programmer error. -/
theorem c7_misuse_fails_fast_cex :
    isPromisePending (promiseObjectEager : MethodHandle Nat Nat) = Except.ok false ∧
    abort (promiseObjectEager : MethodHandle Nat Nat) = Except.ok initCState ∧
    onAbort (promiseObjectEager : MethodHandle Nat Nat) 3 =
      Except.ok (pushAbortListener initCState 3) :=
  ⟨rfl, rfl, rfl⟩

/-- C7 (amended): `abort`, `onAbort` and the inspection functions throw
`Error('Promise object not found')` on a callable the decorator never
wrapped, and on a lazily wrapped callable for which no call has ever started
(its promise object does not exist yet); with eager initialization the
object exists from decoration time and no such call throws. -/
theorem c7_misuse_fails_fast (cb : Nat) :
    abort (MethodHandle.plain : MethodHandle Nat Nat) =
      Except.error "Promise object not found" ∧
    abort (MethodHandle.wrappedLazy : MethodHandle Nat Nat) =
      Except.error "Promise object not found" ∧
    onAbort (MethodHandle.plain : MethodHandle Nat Nat) cb =
      Except.error "Promise object not found" ∧
    onAbort (MethodHandle.wrappedLazy : MethodHandle Nat Nat) cb =
      Except.error "Promise object not found" ∧
    isPromisePending (MethodHandle.plain : MethodHandle Nat Nat) =
      Except.error "Promise object not found" ∧
    isPromisePending (MethodHandle.wrappedLazy : MethodHandle Nat Nat) =
      Except.error "Promise object not found" ∧
    getPromiseError (MethodHandle.plain : MethodHandle Nat Nat) =
      Except.error "Promise object not found" ∧
    getPromiseError (MethodHandle.wrappedLazy : MethodHandle Nat Nat) =
      Except.error "Promise object not found" ∧
    getPromiseResult (MethodHandle.plain : MethodHandle Nat Nat) =
      Except.error "Promise object not found" ∧
    getPromiseResult (MethodHandle.wrappedLazy : MethodHandle Nat Nat) =
      Except.error "Promise object not found" ∧
    abort (promiseObjectEager : MethodHandle Nat Nat) = Except.ok initCState :=
  ⟨rfl, rfl, rfl, rfl, rfl, rfl, rfl, rfl, rfl, rfl, rfl⟩

/-- C8: abort listeners never fire at a normal settlement (the fired log is
unchanged by fulfilment and rejection), every settlement clears the
registration list, an abort fires exactly the currently registered listeners
in order, and at every observable point the registered list holds exactly
the callbacks registered since the last settlement — so a callback
registered for one call can never fire on a later, unrelated call. -/
theorem c8_listener_lifecycle {A V : Type} (s : CState A V) (h : Reachable s) :
    (∀ v : V, (settleResolve s v).fired = s.fired) ∧
    (∀ e : JsError, (settleReject s e).fired = s.fired) ∧
    ((abortPromise s).fired =
      s.fired ++ (if s.obj.isPendingRef = true then s.obj.abortListeners else [])) ∧
    s.obj.abortListeners = s.sinceSettle ∧
    (∀ v : V, s.obj.promise ≠ none → (settleResolve s v).sinceSettle = []) ∧
    (∀ e : JsError, s.obj.promise ≠ none → (settleReject s e).sinceSettle = []) := by
  have inv := inv_reachable h
  refine ⟨?_, ?_, ?_, inv.ghostLis, ?_, ?_⟩
  · intro v
    cases hq : s.obj.promise <;> simp [settleResolve, hq]
  · intro e
    cases hq : s.obj.promise <;> simp [settleReject, hq]
  · cases hp : s.obj.isPendingRef with
    | false => simp [abortPromise, hp]
    | true =>
      obtain ⟨p, hprom⟩ := Option.ne_none_iff_exists'.mp (inv.pendIff.mp hp)
      have hhand : s.obj.handlers = true := inv.handIff.mpr (inv.pendIff.mp hp)
      simp [abortPromise, hp, hhand, settleReject, hprom, settleClear]
  · intro v hq
    obtain ⟨p, hprom⟩ := Option.ne_none_iff_exists'.mp hq
    simp [settleResolve, hprom]
  · intro e hq
    obtain ⟨p, hprom⟩ := Option.ne_none_iff_exists'.mp hq
    simp [settleReject, hprom]

/-- C8 witness: at a pending state with one registered listener, a normal
fulfilment fires nothing and an abort fires exactly that listener. -/
theorem c8_listener_lifecycle_witness :
    (settleResolve (cmcRun [Event.call 1, Event.listen 4] : CState Nat Nat) 9).fired =
      (cmcRun [Event.call 1, Event.listen 4] : CState Nat Nat).fired ∧
    (abortPromise (cmcRun [Event.call 1, Event.listen 4] : CState Nat Nat)).fired =
      (cmcRun [Event.call 1, Event.listen 4] : CState Nat Nat).fired ++
        (if (cmcRun [Event.call 1, Event.listen 4] : CState Nat Nat).obj.isPendingRef = true
          then (cmcRun [Event.call 1, Event.listen 4] : CState Nat Nat).obj.abortListeners
          else []) :=
  ⟨(c8_listener_lifecycle _ ⟨[Event.call 1, Event.listen 4], rfl⟩).1 9,
   (c8_listener_lifecycle _ ⟨[Event.call 1, Event.listen 4], rfl⟩).2.2.1⟩

/-- C9: aborting a pending call records the `AbortError` in the observable
error field exactly like an operation failure — once the rejection has been
processed, `getPromiseError` returns the `AbortError` and `getPromiseResult`
stays absent. -/
theorem c9_abort_recorded_as_error {A V : Type} (s : CState A V) (h : Reachable s)
    (hp : s.obj.isPendingRef = true) :
    getPromiseError (MethodHandle.wrappedInit (abortPromise s)) =
      Except.ok (some JsError.abortError) ∧
    getPromiseResult (MethodHandle.wrappedInit (abortPromise s)) =
      Except.ok (none : Option V) := by
  have inv := inv_reachable h
  obtain ⟨p, hprom⟩ := Option.ne_none_iff_exists'.mp (inv.pendIff.mp hp)
  have hhand : s.obj.handlers = true := inv.handIff.mpr (inv.pendIff.mp hp)
  have hres := (inv.pendClear hp).1
  constructor <;>
    simp [getPromiseError, getPromiseResult, abortPromise, hp, hhand, settleReject,
      hprom, settleClear, hres]

/-- C9 witness: abort of a concrete pending call. -/
theorem c9_abort_recorded_as_error_witness :
    getPromiseError
        (MethodHandle.wrappedInit (abortPromise (cmcRun [Event.call 1] : CState Nat Nat))) =
      Except.ok (some JsError.abortError) ∧
    getPromiseResult
        (MethodHandle.wrappedInit (abortPromise (cmcRun [Event.call 1] : CState Nat Nat))) =
      Except.ok (none : Option Nat) :=
  c9_abort_recorded_as_error _ ⟨[Event.call 1], rfl⟩ (by decide)

/-- C10: for a `dRef`- or `dShallowRef`-decorated accessor, assigning a
value through the setter and then reading through the getter yields that
value: the decorator routes reads and writes through the backing reactive
cell and preserves plain read-after-write property semantics. -/
theorem c10_accessor_read_after_write {V : Type} (b : VueRef V) (v : V) :
    dRefGet (dRefSet b v) = v ∧ dShallowRefGet (dShallowRefSet b v) = v :=
  ⟨rfl, rfl⟩
